import Mathlib

/-!
Shallow embedding of the copy-augmented transformer in
implementation/tf/transformer.py, together with proofs of the specified
properties.

Modelling conventions:
* Tensors are modelled row-wise over the rationals: a (seq_len, d) float
  tensor for one batch row becomes a List (List Rat) with one inner list per
  sequence position.  Using Rat keeps every definition computable; no claim
  in scope depends on rounding behaviour of IEEE floats.
* The numeric exponential used by sigmoid / softmax is passed in as an
  explicit function argument expF; theorems assume only the properties of
  the real exponential that the source relies on (strict positivity).
* tf.math.rsqrt appears only in the learning-rate schedule, which is
  therefore embedded over the real numbers (Real.sqrt / Real.rpow).
* Float division is modelled by fdiv, returning none when the denominator
  is zero: IEEE division of the form 0/0 yields NaN, i.e. no real number,
  and the embedding records that as none.
* Code whose internals no claim mentions (attention layer stacks, the
  encoder pipeline) is abstracted as a function-valued field of the
  corresponding structure; the copy mechanism, output projections, loss,
  schedule, masks over ids and the autoregressive loop are translated
  line by line.
-/

/-- Dot product of two rational vectors, the core of a Dense layer. -/
def dotProd (a b : List ℚ) : ℚ :=
  (List.zipWith (· * ·) a b).sum

/-- A tf.keras.layers.Dense(units) layer: a weight matrix (one row per output
unit) and a bias vector, applied to a single hidden-state row. -/
def denseApply (W : List (List ℚ)) (b : List ℚ) (h : List ℚ) : List ℚ :=
  List.zipWith (fun row bi => dotProd row h + bi) W b

/-- The sigmoid activation of tf.keras.layers.Dense(1, activation="sigmoid"),
with the exponential passed explicitly. -/
def sigmoid (expF : ℚ → ℚ) (x : ℚ) : ℚ :=
  1 / (1 + expF (-x))

/-- tf.nn.softmax over the last axis of a rank-1 score list. -/
def softmaxL (expF : ℚ → ℚ) (s : List ℚ) : List ℚ :=
  s.map (fun x => expF x / (s.map expF).sum)

/-- The tf.scatter_nd step of Decoder.call (transformer.py lines 341-350) for
one batch row: position p of the decoder input contributes its copy mass at
vocabulary slot input[p] of row p; every other slot of row p is zero. -/
def copyScatter (input : List Nat) (probs : List ℚ) (vocab : Nat) : List (List ℚ) :=
  List.zipWith (fun t m => (List.range vocab).map (fun v => if t = v then m else 0))
    input probs

/-- The tf.reduce_sum(output, axis=1) step of Decoder.call (line 351): the
scattered rows are summed over the position axis, accumulating the copy mass
of every position that carries the same token id. -/
def copyLogits (input : List Nat) (probs : List ℚ) (vocab : Nat) : List ℚ :=
  (copyScatter input probs vocab).foldr (fun r acc => List.zipWith (· + ·) r acc)
    (List.replicate vocab 0)

/-- Float division: IEEE division by zero produces inf or NaN, i.e. no real
number; the embedding records that outcome as none. -/
def fdiv (a b : ℚ) : Option ℚ :=
  if b = 0 then none else some (a / b)

/-- loss_function (transformer.py lines 426-433), flattened over positions.
lossObject stands for the per-position
tf.keras.losses.SparseCategoricalCrossentropy collaborator.  The mask is 1
exactly where the target id differs from the padding id 0, and the masked
per-position losses are summed and divided by the mask total. -/
def loss_function (lossObject : Nat → List ℚ → ℚ) (real : List Nat)
    (pred : List (List ℚ)) : Option ℚ :=
  let mask : List ℚ := real.map (fun r => if r = 0 then 0 else 1)
  let lossPer : List ℚ := List.zipWith (fun r p => lossObject r p) real pred
  let lossMasked : List ℚ := List.zipWith (· * ·) lossPer mask
  fdiv lossMasked.sum mask.sum

/-- The dict comprehension of read_embeddings (line 171):
vocab_to_index = {reader.vocab.decode(id): id for id in range(vocab_size)}.
Later ids overwrite earlier ones on a decode collision, so lookup returns the
largest matching id. -/
def vocab_to_index (decode : Nat → String) (vocab_size : Nat) (w : String) : Option Nat :=
  (List.range vocab_size).foldl (fun acc id => if decode id = w then some id else acc) none

/-- The per-line body of the read_embeddings loop (lines 175-179): a line
whose token is in the vocabulary overwrites the row at that token's id,
every other line leaves the matrix unchanged. -/
def read_embeddings_line (decode : Nat → String) (vocab_size : Nat)
    (M : List (List ℚ)) (line : String × List ℚ) : List (List ℚ) :=
  match vocab_to_index decode vocab_size line.1 with
  | some i => M.set i line.2
  | none => M

/-- read_embeddings (transformer.py lines 165-181).  The parsed embedding
file is a list of (token, vector) lines in file order; the matrix starts as
(vocab_size+1) zero rows of width embedding_size and the lines are folded
over it in file order. -/
def read_embeddings (decode : Nat → String) (vocab_size embedding_size : Nat)
    (file : List (String × List ℚ)) : List (List ℚ) :=
  file.foldl (read_embeddings_line decode vocab_size)
    (List.replicate (vocab_size + 1) (List.replicate embedding_size 0))

/-- The constructed state of MultiHeadAttention.__init__ (lines 108-122):
head count, model width and per-head depth d_model // num_heads. -/
structure MultiHeadAttentionM where
  num_heads : Nat
  d_model : Nat
  depth : Nat
deriving Repr, DecidableEq

/-- MultiHeadAttention.__init__: the assert on line 114 makes construction
fail unless d_model % num_heads == 0; evaluating the modulus with
num_heads = 0 raises in Python as well, so construction also fails there. -/
def MultiHeadAttention.init (d_model num_heads : Nat) : Option MultiHeadAttentionM :=
  if num_heads ≠ 0 ∧ d_model % num_heads = 0 then
    some ⟨num_heads, d_model, d_model / num_heads⟩
  else
    none

/-- tf.argmax over one logits row: index of the first maximal entry. -/
def argmaxIdx (l : List ℚ) : Nat :=
  (List.range l.length).foldl
    (fun best i => if l.getD best 0 < l.getD i 0 then i else best) 0

/-- The decode loop of SeqModel.auto_regress (lines 568-588), with the whole
masks-plus-forward-plus-argmax body abstracted as step: the loop runs at most
the fuel many iterations, returns the accumulated output without appending as
soon as step produces the end token, and otherwise appends and continues. -/
def autoRegressAux (step : List Nat → Nat) (eos : Nat) : Nat → List Nat → List Nat
  | 0, out => out
  | n + 1, out =>
    let p := step out
    if p = eos then out else autoRegressAux step eos n (out ++ [p])

/-- The state of Decoder.__init__ (lines 284-309) needed by the claims.  The
embedding / positional-encoding / dropout / DecoderLayer pipeline of
Decoder.call (lines 313-329), whose internals no claim in scope mentions, is
abstracted as the field stack, mapping the decoder-input token ids and the
encoder output rows to the final hidden-state rows x together with the last
layer's cross-attention output rows attn, one row per target position. -/
structure DecoderM where
  target_vocab_size : Nat
  copynet : Bool
  embeddingInit : Option (List (List ℚ))
  stack : List Nat → List (List ℚ) → List (List ℚ) × List (List ℚ)
  genW : List ℚ
  genB : ℚ
  copyNetW1 : List (List ℚ)
  copyNetB1 : List ℚ
  copyNetW2 : List ℚ
  copyNetB2 : ℚ

/-- The copy_network of Decoder.__init__ (lines 306-308): Dense(dff, relu)
followed by Dense(1), producing one raw copy score per position. -/
def DecoderM.copyScore (D : DecoderM) (h : List ℚ) : ℚ :=
  dotProd D.copyNetW2 ((denseApply D.copyNetW1 D.copyNetB1 h).map (fun x => max x 0))
    + D.copyNetB2

/-- Decoder.call (lines 311-357) for one batch row.  With copynet enabled,
p_gen is the sigmoid-activated Dense(1) of the final hidden state at each
position, the raw copy scores from the cross-attention rows are softmaxed
into a position distribution, scattered by input token id and summed; with
copynet disabled p_gen is the scalar 0 (broadcast here to every position) and
copy_logits is the zero matrix.  In both branches line 355 tiles the
vocabulary-sized copy row to every output time step.  The shape bookkeeping
of lines 334-344 (squeeze of the trailing size-1 axis with its fallback,
expand_dims, meshgrid index construction) has no numeric content in the
one-row model and is absorbed into copyScatter / copyLogits. -/
def DecoderM.call (expF : ℚ → ℚ) (D : DecoderM) (x : List Nat)
    (enc_output : List (List ℚ)) : List (List ℚ) × List ℚ × List (List ℚ) :=
  let hs := D.stack x enc_output
  let h := hs.1
  let attn := hs.2
  if D.copynet then
    let p_gen := h.map (fun v => sigmoid expF (dotProd D.genW v + D.genB))
    let copy_probs := softmaxL expF (attn.map D.copyScore)
    let cl := copyLogits x copy_probs D.target_vocab_size
    (h, p_gen, List.replicate h.length cl)
  else
    (h, List.replicate h.length 0,
      List.replicate h.length (List.replicate D.target_vocab_size 0))

/-- Decoder.__init__ (lines 285-309): records the copynet flag, the embedding
initializer actually received (none models a freshly initialized embedding
table), and the copy-network / gen-prob parameters. -/
def DecoderM.init (stack : List Nat → List (List ℚ) → List (List ℚ) × List (List ℚ))
    (genW : List ℚ) (genB : ℚ) (copyNetW1 : List (List ℚ)) (copyNetB1 : List ℚ)
    (copyNetW2 : List ℚ) (copyNetB2 : ℚ) (target_vocab_size : Nat) (copynet : Bool)
    (embeddings_matrix : Option (List (List ℚ))) : DecoderM :=
  { target_vocab_size := target_vocab_size
    copynet := copynet
    embeddingInit := embeddings_matrix
    stack := stack
    genW := genW
    genB := genB
    copyNetW1 := copyNetW1
    copyNetB1 := copyNetB1
    copyNetW2 := copyNetW2
    copyNetB2 := copyNetB2 }

/-- The state of Encoder.__init__ (lines 246-266) needed by the claims: the
embedding initializer actually received and the whole forward pipeline of
Encoder.call abstracted as a function from input ids to context rows. -/
structure EncoderM where
  embeddingInit : Option (List (List ℚ))
  callF : List Nat → List (List ℚ)

/-- Encoder.__init__: records the embedding initializer it was given (the
default is None, i.e. a fresh table). -/
def EncoderM.init (callF : List Nat → List (List ℚ))
    (embeddings_matrix : Option (List (List ℚ))) : EncoderM :=
  { embeddingInit := embeddings_matrix, callF := callF }

/-- The state of Transformer.__init__ (lines 360-377): one encoder, the two
decoders, and the two final Dense(target_vocab_size) projections, each kept
as a weight matrix and bias vector. -/
structure TransformerM where
  copynet : Bool
  encoder : EncoderM
  response_decoder : DecoderM
  bspan_decoder : DecoderM
  response_finalW : List (List ℚ)
  response_finalB : List ℚ
  bspan_finalW : List (List ℚ)
  bspan_finalB : List ℚ

/-- Transformer.__init__ (lines 360-377): the encoder is constructed without
the embeddings matrix (lines 367-368 omit that argument, so the Encoder
default None applies), while both decoders receive it; both decoders also
receive the copynet flag, and two separate final projections are created. -/
def TransformerM.init
    (encCallF : List Nat → List (List ℚ))
    (respStack bspStack : List Nat → List (List ℚ) → List (List ℚ) × List (List ℚ))
    (respGenW : List ℚ) (respGenB : ℚ) (respCW1 : List (List ℚ)) (respCB1 : List ℚ)
    (respCW2 : List ℚ) (respCB2 : ℚ)
    (bspGenW : List ℚ) (bspGenB : ℚ) (bspCW1 : List (List ℚ)) (bspCB1 : List ℚ)
    (bspCW2 : List ℚ) (bspCB2 : ℚ)
    (target_vocab_size : Nat)
    (response_finalW : List (List ℚ)) (response_finalB : List ℚ)
    (bspan_finalW : List (List ℚ)) (bspan_finalB : List ℚ)
    (copynet : Bool) (embeddings_matrix : Option (List (List ℚ))) : TransformerM :=
  { copynet := copynet
    encoder := EncoderM.init encCallF none
    response_decoder := DecoderM.init respStack respGenW respGenB respCW1 respCB1
      respCW2 respCB2 target_vocab_size copynet embeddings_matrix
    bspan_decoder := DecoderM.init bspStack bspGenW bspGenB bspCW1 bspCB1
      bspCW2 bspCB2 target_vocab_size copynet embeddings_matrix
    response_finalW := response_finalW
    response_finalB := response_finalB
    bspan_finalW := bspan_finalW
    bspan_finalB := bspan_finalB }

/-- The decoder-call intermediate of Transformer.bspan (lines 380-384): the
belief-span decoder run on the target ids and the encoder output. -/
def TransformerM.bspanParts (expF : ℚ → ℚ) (T : TransformerM) (inp tar : List Nat) :
    List (List ℚ) × List ℚ × List (List ℚ) :=
  DecoderM.call expF T.bspan_decoder tar (T.encoder.callF inp)

/-- The generated logits of Transformer.bspan: line 386 projects the
belief-span decoder's hidden state through self.response_final (sic — the
constructed self.bspan_final is never applied). -/
def TransformerM.bspanGen (expF : ℚ → ℚ) (T : TransformerM) (inp tar : List Nat) :
    List (List ℚ) :=
  (T.bspanParts expF inp tar).1.map (denseApply T.response_finalW T.response_finalB)

/-- The per-step generation probabilities returned to Transformer.bspan. -/
def TransformerM.bspanPGen (expF : ℚ → ℚ) (T : TransformerM) (inp tar : List Nat) :
    List ℚ :=
  (T.bspanParts expF inp tar).2.1

/-- The per-step vocabulary-sized copy logits returned to Transformer.bspan. -/
def TransformerM.bspanCopy (expF : ℚ → ℚ) (T : TransformerM) (inp tar : List Nat) :
    List (List ℚ) :=
  (T.bspanParts expF inp tar).2.2

/-- The belief-span decoder's final hidden-state rows inside
Transformer.bspan. -/
def TransformerM.bspanHidden (expF : ℚ → ℚ) (T : TransformerM) (inp tar : List Nat) :
    List (List ℚ) :=
  (T.bspanParts expF inp tar).1

/-- Transformer.bspan (lines 379-390): encode, decode with the belief-span
decoder, project through self.response_final (line 386), and mix with the
copy distribution when copynet is enabled:
output = p_gen * generated + (1 - p_gen) * copy, elementwise per time step. -/
def TransformerM.bspan (expF : ℚ → ℚ) (T : TransformerM) (inp tar : List Nat) :
    List (List ℚ) :=
  let out := T.bspanGen expF inp tar
  if T.copynet then
    List.zipWith
      (fun p gc => List.zipWith (fun g c => p * g + (1 - p) * c) gc.1 gc.2)
      (T.bspanPGen expF inp tar) (out.zip (T.bspanCopy expF inp tar))
  else out

/-- Transformer.response (lines 392-403): identical shape to bspan but with
the response decoder; line 399 projects through self.response_final. -/
def TransformerM.response (expF : ℚ → ℚ) (T : TransformerM) (inp tar : List Nat) :
    List (List ℚ) :=
  let parts := DecoderM.call expF T.response_decoder tar (T.encoder.callF inp)
  let out := parts.1.map (denseApply T.response_finalW T.response_finalB)
  if T.copynet then
    List.zipWith
      (fun p gc => List.zipWith (fun g c => p * g + (1 - p) * c) gc.1 gc.2)
      parts.2.1 (out.zip parts.2.2)
  else out

/-- tf.math.rsqrt: the reciprocal square root over the reals; a nonpositive
argument yields inf or NaN, i.e. no real number, recorded as none. -/
noncomputable def tfRsqrt (x : ℝ) : Option ℝ :=
  if 0 < x then some (Real.sqrt x)⁻¹ else none

/-- CustomSchedule.call (lines 415-419):
rsqrt(d_model) * minimum(rsqrt(step), step * warmup_steps ** -1.5), with a
non-finite rsqrt propagating as none. -/
noncomputable def CustomSchedule.call (d_model warmup_steps step : ℝ) : Option ℝ :=
  (tfRsqrt step).bind fun arg1 =>
    (tfRsqrt d_model).bind fun rds =>
      some (rds * min arg1 (step * warmup_steps ^ (-1.5 : ℝ)))

/-- The per-iteration next-token computation of SeqModel.auto_regress
(lines 569-581): run the selected head of the transformer on the input
sequence and the partial output, keep the last position's logits row, and
take tf.argmax. -/
def SeqModel.autoRegressStep (expF : ℚ → ℚ) (T : TransformerM) (useBspan : Bool)
    (input_sequence : List Nat) (out : List Nat) : Nat :=
  argmaxIdx
    (((if useBspan then T.bspan expF input_sequence out
       else T.response expF input_sequence out)).getLastD [])

/-- SeqModel.auto_regress (lines 561-588): seed the output with the start
marker cfg.vocab_size, then loop at most MAX_LENGTH times, stopping without
appending as soon as the predicted id equals the selected end-of-sequence
id. -/
def SeqModel.auto_regress (expF : ℚ → ℚ) (T : TransformerM) (useBspan : Bool)
    (input_sequence : List Nat) (end_token_id startTok MAX_LENGTH : Nat) : List Nat :=
  autoRegressAux (SeqModel.autoRegressStep expF T useBspan input_sequence)
    end_token_id MAX_LENGTH [startTok]

/-! Helper lemmas. -/

/-- The decode loop appends at most one token per unit of fuel. -/
theorem autoRegressAux_length_le (step : List Nat → Nat) (eos : Nat) :
    ∀ (n : Nat) (out : List Nat),
      (autoRegressAux step eos n out).length ≤ out.length + n := by
  intro n
  induction n with
  | zero => intro out; simp [autoRegressAux]
  | succ m ih =>
    intro out
    unfold autoRegressAux
    by_cases h : step out = eos
    · simp [h]
    · simp only [h, if_false]
      have := ih (out ++ [step out])
      simp only [List.length_append, List.length_singleton] at this
      omega

/-! Claim C9: multi-head attention construction fails exactly on a
non-divisible configuration. -/

/-- C9. MultiHeadAttention.__init__ fails at construction (the line-114
assert, and for num_heads = 0 the modulus itself) whenever num_heads does not
divide d_model, and succeeds whenever it does. -/
theorem multiHeadAttention_init_divisibility (d_model num_heads : Nat)
    (h : 0 < num_heads) :
    (¬ num_heads ∣ d_model → MultiHeadAttention.init d_model num_heads = none) ∧
    (num_heads ∣ d_model → ∃ m, MultiHeadAttention.init d_model num_heads = some m) := by
  constructor
  · intro hnd
    unfold MultiHeadAttention.init
    rw [if_neg]
    rintro ⟨-, hmod⟩
    exact hnd (Nat.dvd_iff_mod_eq_zero.mpr hmod)
  · intro hd
    unfold MultiHeadAttention.init
    rw [if_pos ⟨Nat.pos_iff_ne_zero.mp h, Nat.dvd_iff_mod_eq_zero.mp hd⟩]
    exact ⟨_, rfl⟩

/-- Witness for C9 at d_model = 8, num_heads = 2. -/
theorem multiHeadAttention_init_divisibility_witness :
    0 < 2 ∧ (2 : Nat) ∣ 8 ∧ ∃ m, MultiHeadAttention.init 8 2 = some m :=
  ⟨by decide, by decide,
    (multiHeadAttention_init_divisibility 8 2 (by decide)).2 (by decide)⟩

/-! Claim C4: the autoregressive decode loop is bounded and stops immediately
on a first-step end token. -/

/-- C4. For every model and input sequence, auto_regress returns an output of
length at most MAX_LENGTH + 1 (the start marker plus at most one appended
token per loop iteration), and if the very first argmax prediction equals the
end-of-sequence id the returned output is exactly the seeded start marker,
of length 1. -/
theorem auto_regress_bounded_and_early_stop (expF : ℚ → ℚ) (T : TransformerM)
    (useBspan : Bool) (inp : List Nat) (eos startTok MAXLEN : Nat) :
    (SeqModel.auto_regress expF T useBspan inp eos startTok MAXLEN).length ≤ MAXLEN + 1 ∧
    (SeqModel.autoRegressStep expF T useBspan inp [startTok] = eos →
      SeqModel.auto_regress expF T useBspan inp eos startTok MAXLEN = [startTok]) := by
  constructor
  · have h := autoRegressAux_length_le (SeqModel.autoRegressStep expF T useBspan inp)
      eos MAXLEN [startTok]
    simpa [SeqModel.auto_regress, Nat.add_comm] using h
  · intro h
    unfold SeqModel.auto_regress
    cases MAXLEN with
    | zero => rfl
    | succ n => simp [autoRegressAux, h]

/-- Witness for C4: a concrete transformer whose argmax prediction is 0 at
the first step, with end token id 0 and MAX_LENGTH 5, yields the length-1
output consisting of the start marker alone. -/
theorem auto_regress_bounded_and_early_stop_witness :
    SeqModel.autoRegressStep (fun _ => 1)
      (TransformerM.init (fun _ => [])
        (fun x _ => (x.map (fun _ => [1]), x.map (fun _ => [1])))
        (fun x _ => (x.map (fun _ => [1]), x.map (fun _ => [1])))
        [] 0 [] [] [] 0 [] 0 [] [] [] 0 1 [[1]] [0] [[1]] [0] false none)
      true [3] [9] = 0 ∧
    SeqModel.auto_regress (fun _ => 1)
      (TransformerM.init (fun _ => [])
        (fun x _ => (x.map (fun _ => [1]), x.map (fun _ => [1])))
        (fun x _ => (x.map (fun _ => [1]), x.map (fun _ => [1])))
        [] 0 [] [] [] 0 [] 0 [] [] [] 0 1 [[1]] [0] [[1]] [0] false none)
      true [3] 0 9 5 = [9] :=
  ⟨by norm_num [SeqModel.autoRegressStep, TransformerM.bspan, TransformerM.bspanGen,
      TransformerM.bspanParts, TransformerM.init, DecoderM.call, DecoderM.init,
      EncoderM.init, denseApply, dotProd, argmaxIdx, List.range_succ, List.foldl,
      List.getLastD],
    (auto_regress_bounded_and_early_stop (fun _ => 1)
      (TransformerM.init (fun _ => [])
        (fun x _ => (x.map (fun _ => [1]), x.map (fun _ => [1])))
        (fun x _ => (x.map (fun _ => [1]), x.map (fun _ => [1])))
        [] 0 [] [] [] 0 [] 0 [] [] [] 0 1 [[1]] [0] [[1]] [0] false none)
      true [3] 0 9 5).2
      (by norm_num [SeqModel.autoRegressStep, TransformerM.bspan, TransformerM.bspanGen,
        TransformerM.bspanParts, TransformerM.init, DecoderM.call, DecoderM.init,
        EncoderM.init, denseApply, dotProd, argmaxIdx, List.range_succ, List.foldl,
        List.getLastD])⟩

/-! Claim C10: the pretrained embedding matrix reaches only the decoders. -/

/-- C10. Transformer.__init__ hands the supplied embeddings matrix to both
decoders, while the encoder is always constructed with a fresh embedding
table (lines 367-368 omit the embeddings_matrix argument), for every choice
of constructor arguments. -/
theorem transformer_init_embedding_routing
    (encCallF : List Nat → List (List ℚ))
    (respStack bspStack : List Nat → List (List ℚ) → List (List ℚ) × List (List ℚ))
    (respGenW : List ℚ) (respGenB : ℚ) (respCW1 : List (List ℚ)) (respCB1 : List ℚ)
    (respCW2 : List ℚ) (respCB2 : ℚ)
    (bspGenW : List ℚ) (bspGenB : ℚ) (bspCW1 : List (List ℚ)) (bspCB1 : List ℚ)
    (bspCW2 : List ℚ) (bspCB2 : ℚ)
    (target_vocab_size : Nat)
    (response_finalW : List (List ℚ)) (response_finalB : List ℚ)
    (bspan_finalW : List (List ℚ)) (bspan_finalB : List ℚ)
    (copynet : Bool) (embeddings_matrix : Option (List (List ℚ))) :
    (TransformerM.init encCallF respStack bspStack respGenW respGenB respCW1 respCB1
      respCW2 respCB2 bspGenW bspGenB bspCW1 bspCB1 bspCW2 bspCB2 target_vocab_size
      response_finalW response_finalB bspan_finalW bspan_finalB copynet
      embeddings_matrix).encoder.embeddingInit = none ∧
    (TransformerM.init encCallF respStack bspStack respGenW respGenB respCW1 respCB1
      respCW2 respCB2 bspGenW bspGenB bspCW1 bspCB1 bspCW2 bspCB2 target_vocab_size
      response_finalW response_finalB bspan_finalW bspan_finalB copynet
      embeddings_matrix).response_decoder.embeddingInit = embeddings_matrix ∧
    (TransformerM.init encCallF respStack bspStack respGenW respGenB respCW1 respCB1
      respCW2 respCB2 bspGenW bspGenB bspCW1 bspCB1 bspCW2 bspCB2 target_vocab_size
      response_finalW response_finalB bspan_finalW bspan_finalB copynet
      embeddings_matrix).bspan_decoder.embeddingInit = embeddings_matrix :=
  ⟨rfl, rfl, rfl⟩

/-! Claim C1: which final projection does bspan apply? -/

/-- C1 divergence. The output of Transformer.bspan is unchanged under any
replacement of the bspan_final parameters: line 386 projects the belief-span
decoder's hidden state through self.response_final, and the constructed
self.bspan_final is never applied, so the two heads do not use distinct
output projections. -/
theorem bspan_independent_of_bspan_final (expF : ℚ → ℚ) (T : TransformerM)
    (fW : List (List ℚ)) (fB : List ℚ) (inp tar : List Nat) :
    TransformerM.bspan expF { T with bspan_finalW := fW, bspan_finalB := fB } inp tar =
      TransformerM.bspan expF T inp tar :=
  rfl

/-! Claim C7: the masked loss has no guard for an all-padding batch. -/

/-- C7 divergence. For a target consisting entirely of the padding id 0, the
mask sums to 0 and loss_function divides by it: the result is 0/0, i.e. NaN
(none in this embedding), for every per-position loss collaborator.  No
guard exists in the code. -/
theorem loss_function_all_padding_nan (lossObject : Nat → List ℚ → ℚ) :
    loss_function lossObject [0, 0] [[1], [1]] = none := by
  simp [loss_function, fdiv]

/-! Claim C6: the masked loss averages over non-padding positions only. -/

/-- The float mask of loss_function sums to the number of non-padding
positions. -/
theorem maskSum_eq_countP (real : List Nat) :
    ((real.map (fun r => if r = 0 then (0:ℚ) else 1)).sum) =
      (real.countP (fun r => r ≠ 0) : ℚ) := by
  induction real with
  | nil => simp
  | cons a l ih =>
    simp only [List.map_cons, List.sum_cons, List.countP_cons, ih]
    by_cases h : a = 0
    · simp [h]
    · simp [h]
      ring

/-- The masked per-position losses sum to the plain sum of the per-position
losses at non-padding positions. -/
theorem maskedLossSum (lossObject : Nat → List ℚ → ℚ) :
    ∀ (real : List Nat) (pred : List (List ℚ)), real.length = pred.length →
    (List.zipWith (· * ·) (List.zipWith (fun r p => lossObject r p) real pred)
        (real.map (fun r => if r = 0 then (0:ℚ) else 1))).sum =
      (((real.zip pred).filter (fun rp => rp.1 ≠ 0)).map
        (fun rp => lossObject rp.1 rp.2)).sum := by
  intro real
  induction real with
  | nil => intro pred _; simp
  | cons a l ih =>
    intro pred h
    cases pred with
    | nil => simp at h
    | cons b p =>
      simp only [List.zipWith_cons_cons, List.map_cons, List.zip_cons_cons,
        List.filter_cons, List.sum_cons]
      by_cases ha : a = 0
      · simp [ha, ih p (by simpa using h)]
      · simp [ha, ih p (by simpa using h)]

/-- C6. Whenever the target has a non-padding position, loss_function equals
the sum of the per-position losses over the positions whose target id is not
the padding id 0, divided by the number of such positions. -/
theorem loss_function_masked_mean (lossObject : Nat → List ℚ → ℚ)
    (real : List Nat) (pred : List (List ℚ)) (hlen : real.length = pred.length)
    (hx : ∃ r ∈ real, r ≠ 0) :
    loss_function lossObject real pred =
      some ((((real.zip pred).filter (fun rp => rp.1 ≠ 0)).map
          (fun rp => lossObject rp.1 rp.2)).sum /
        (real.countP (fun r => r ≠ 0) : ℚ)) := by
  have hc : 0 < real.countP (fun r => r ≠ 0) :=
    List.countP_pos_iff.mpr (by simpa using hx)
  simp only [loss_function, fdiv]
  rw [maskSum_eq_countP, maskedLossSum lossObject real pred hlen, if_neg]
  exact_mod_cast Nat.pos_iff_ne_zero.mp hc

/-- Witness for C6 on the target [3, 0] with two logits rows: the loss is the
single non-padding position's loss divided by 1. -/
theorem loss_function_masked_mean_witness :
    ([3, 0] : List Nat).length = ([[1], [2]] : List (List ℚ)).length ∧
    (∃ r ∈ ([3, 0] : List Nat), r ≠ 0) ∧
    loss_function (fun r p => (r : ℚ) + p.sum) [3, 0] [[1], [2]] =
      some (((((([3, 0] : List Nat).zip ([[1], [2]] : List (List ℚ))).filter
          (fun rp => rp.1 ≠ 0)).map
          (fun rp => ((rp.1 : ℚ) + rp.2.sum))).sum /
        (([3, 0] : List Nat).countP (fun r => r ≠ 0) : ℚ))) :=
  ⟨by decide, by decide,
    loss_function_masked_mean (fun r p => (r : ℚ) + p.sum) [3, 0] [[1], [2]]
      (by decide) (by decide)⟩

/-! Claim C2: the copy distribution accumulates over duplicate input ids. -/

/-- The scattered-and-summed copy row always has vocabulary length. -/
theorem copyLogits_length : ∀ (input : List Nat) (probs : List ℚ) (vocab : Nat),
    (copyLogits input probs vocab).length = vocab := by
  intro input
  induction input with
  | nil => intro probs vocab; simp [copyLogits, copyScatter]
  | cons t input ih =>
    intro probs vocab
    cases probs with
    | nil => simp [copyLogits, copyScatter]
    | cons m probs =>
      have ihl := ih probs vocab
      simp only [copyLogits, copyScatter, List.zipWith_cons_cons, List.foldr_cons]
      simp only [copyLogits, copyScatter] at ihl
      simp [List.length_zipWith, ihl]

/-- Entrywise reading of the elementwise sum of two rational rows. -/
theorem getD_zipWith_add : ∀ (a b : List ℚ) (v : Nat), v < a.length → v < b.length →
    (List.zipWith (· + ·) a b).getD v 0 = a.getD v 0 + b.getD v 0 := by
  intro a
  induction a with
  | nil => intro b v hv; simp at hv
  | cons x a ih =>
    intro b v hv hvb
    cases b with
    | nil => simp at hvb
    | cons y b =>
      cases v with
      | zero => simp
      | succ w =>
        simp only [List.zipWith_cons_cons, List.getD_cons_succ]
        exact ih b w (by simpa using hv) (by simpa using hvb)

/-- Entrywise reading of one scattered row. -/
theorem getD_range_map (f : Nat → ℚ) (vocab v : Nat) (hv : v < vocab) :
    ((List.range vocab).map f).getD v 0 = f v := by
  rw [List.getD_eq_getElem _ _ (by simpa using hv), List.getElem_map]
  congr 1
  exact List.getElem_range _ _

/-- Entrywise reading of the all-zero base row. -/
theorem getD_replicate_zero (n v : Nat) : (List.replicate n (0:ℚ)).getD v 0 = 0 := by
  by_cases h : v < n <;> simp [List.getD, List.getElem?_replicate, h]

/-- C2. Slot v of the scattered copy distribution is exactly the sum of the
copy probabilities of all input positions whose token id is v; in particular
duplicate source tokens accumulate their copy mass. -/
theorem copyLogits_accumulates : ∀ (input : List Nat) (probs : List ℚ) (vocab v : Nat),
    input.length = probs.length → v < vocab →
    (copyLogits input probs vocab).getD v 0 =
      (((input.zip probs).filter (fun tp => tp.1 = v)).map (fun tp => tp.2)).sum := by
  intro input
  induction input with
  | nil => intro probs vocab v hlen hv; simp [copyLogits, copyScatter, getD_replicate_zero]
  | cons t input ih =>
    intro probs vocab v hlen hv
    cases probs with
    | nil => simp at hlen
    | cons m probs =>
      have hcons : copyLogits (t :: input) (m :: probs) vocab =
          List.zipWith (· + ·) ((List.range vocab).map (fun x => if t = x then m else 0))
            (copyLogits input probs vocab) := by
        simp [copyLogits, copyScatter]
      rw [hcons,
        getD_zipWith_add _ _ v (by simpa using hv) (by rw [copyLogits_length]; exact hv),
        getD_range_map _ _ _ hv, ih probs vocab v (by simpa using hlen) hv]
      simp only [List.zip_cons_cons, List.filter_cons]
      by_cases ht : t = v <;> simp [ht]

/-- Witness for C2 on the input [2, 2, 5] with duplicate token id 2: slot 2
receives the sum of the first two positions' masses. -/
theorem copyLogits_accumulates_witness :
    ([2, 2, 5] : List Nat).length = ([5, 7, 9] : List ℚ).length ∧ 2 < 6 ∧
    (copyLogits [2, 2, 5] [5, 7, 9] 6).getD 2 0 =
      (((([2, 2, 5] : List Nat).zip ([5, 7, 9] : List ℚ)).filter
        (fun tp => tp.1 = 2)).map (fun tp => tp.2)).sum :=
  ⟨by decide, by decide,
    copyLogits_accumulates [2, 2, 5] [5, 7, 9] 6 2 (by decide) (by decide)⟩

/-! Claim C8: rows of the pretrained embedding matrix. -/

/-- Any id produced by the lookup fold decodes to the looked-up word or was
already in the accumulator. -/
theorem vocab_to_index_sound_aux (decode : Nat → String) (w : String) :
    ∀ (ids : List Nat) (acc : Option Nat) (j : Nat),
      ids.foldl (fun a id => if decode id = w then some id else a) acc = some j →
      (decode j = w ∧ j ∈ ids) ∨ acc = some j := by
  intro ids
  induction ids with
  | nil => intro acc j h; exact Or.inr h
  | cons a l ih =>
    intro acc j h
    simp only [List.foldl_cons] at h
    rcases ih _ j h with ⟨hw, hm⟩ | hacc
    · exact Or.inl ⟨hw, List.mem_cons_of_mem _ hm⟩
    · by_cases hda : decode a = w
      · rw [if_pos hda] at hacc
        obtain rfl : a = j := by injection hacc
        exact Or.inl ⟨hda, List.mem_cons_self _ _⟩
      · rw [if_neg hda] at hacc
        exact Or.inr hacc

/-- A successful vocabulary lookup returns an id in range decoding to the
looked-up word. -/
theorem vocab_to_index_sound (decode : Nat → String) (n : Nat) (w : String) (j : Nat)
    (h : vocab_to_index decode n w = some j) : decode j = w ∧ j < n := by
  rcases vocab_to_index_sound_aux decode w (List.range n) none j h with ⟨hw, hm⟩ | habs
  · exact ⟨hw, List.mem_range.mp hm⟩
  · simp at habs

/-- When decode is injective on the vocabulary range, looking up the surface
token of id i returns exactly i. -/
theorem vocab_to_index_self (decode : Nat → String) :
    ∀ (n i : Nat), i < n →
      (∀ a, a < n → ∀ b, b < n → decode a = decode b → a = b) →
      vocab_to_index decode n (decode i) = some i := by
  intro n
  induction n with
  | zero => intro i hi _; omega
  | succ m ih =>
    intro i hi hinj
    unfold vocab_to_index
    rw [List.range_succ, List.foldl_append]
    simp only [List.foldl_cons, List.foldl_nil]
    by_cases him : i = m
    · subst him
      rw [if_pos rfl]
    · have hi' : i < m := by omega
      have hne : decode m ≠ decode i := by
        intro h
        exact him (hinj i hi m (by omega) h.symm)
      rw [if_neg hne]
      have hres := ih i hi' (fun a ha b hb hab => hinj a (by omega) b (by omega) hab)
      unfold vocab_to_index at hres
      exact hres

/-- One line of the embedding loop does not change the matrix length. -/
theorem read_embeddings_line_length (decode : Nat → String) (n : Nat)
    (M : List (List ℚ)) (line : String × List ℚ) :
    (read_embeddings_line decode n M line).length = M.length := by
  unfold read_embeddings_line
  cases vocab_to_index decode n line.1 <;> simp

/-- Lines whose token is not the surface token of id i never touch row i. -/
theorem read_embeddings_fold_other (decode : Nat → String) (n i : Nat) :
    ∀ (file : List (String × List ℚ)) (M : List (List ℚ)),
      (∀ l ∈ file, l.1 ≠ decode i) →
      (file.foldl (read_embeddings_line decode n) M).getD i [] = M.getD i [] := by
  intro file
  induction file with
  | nil => intro M _; rfl
  | cons l rest ih =>
    intro M hall
    simp only [List.foldl_cons]
    rw [ih _ (fun l' hl' => hall l' (List.mem_cons_of_mem _ hl'))]
    unfold read_embeddings_line
    cases hv : vocab_to_index decode n l.1 with
    | none => rfl
    | some j =>
      have hj := (vocab_to_index_sound decode n l.1 j hv).1
      have hji : j ≠ i := by
        intro h
        subst h
        exact hall l (List.mem_cons_self _ _) hj.symm
      simp only
      rw [List.getD_eq_getElem?_getD, List.getElem?_set_ne hji,
        ← List.getD_eq_getElem?_getD]

/-- Row i of the folded matrix carries the vector of the last file line whose
token is the surface token of id i. -/
theorem read_embeddings_fold_last (decode : Nat → String) (n i : Nat) (hi : i < n)
    (hinj : ∀ a, a < n → ∀ b, b < n → decode a = decode b → a = b) :
    ∀ (file : List (String × List ℚ)) (M : List (List ℚ)), i < M.length →
      ∀ e : String × List ℚ,
        (file.filter (fun l => l.1 = decode i)).getLast? = some e →
        (file.foldl (read_embeddings_line decode n) M).getD i [] = e.2 := by
  intro file
  induction file with
  | nil => intro M _ e he; simp at he
  | cons l rest ih =>
    intro M hM e he
    simp only [List.foldl_cons]
    by_cases hl : l.1 = decode i
    · rcases hrest : (rest.filter (fun x => x.1 = decode i)).getLast? with _ | e'
      · have hrnil : rest.filter (fun x => x.1 = decode i) = [] :=
          List.getLast?_eq_none_iff.mp hrest
        have hsing : (l :: rest).filter (fun x => x.1 = decode i) = [l] := by
          rw [List.filter_cons, if_pos (by simpa using hl), hrnil]
        rw [hsing] at he
        have hel : e = l := by
          have : some l = some e := by simpa using he
          injection this with h
          exact h.symm
        subst hel
        rw [read_embeddings_fold_other decode n i rest _
          (fun l' hl' => by simpa using List.filter_eq_nil_iff.mp hrnil l' hl')]
        unfold read_embeddings_line
        rw [hl, vocab_to_index_self decode n i hi hinj]
        simp only
        rw [List.getD_eq_getElem?_getD, List.getElem?_set_self]
        · simp
        · exact hM
      · have hfe : ((l :: rest).filter (fun x => x.1 = decode i)).getLast? =
            (rest.filter (fun x => x.1 = decode i)).getLast? := by
          rw [List.filter_cons, if_pos (by simpa using hl)]
          cases hfr : rest.filter (fun x => x.1 = decode i) with
          | nil => rw [hfr] at hrest; simp at hrest
          | cons a as => rw [List.getLast?_cons_cons]
        rw [hfe, hrest] at he
        injection he with he
        subst he
        exact ih (read_embeddings_line decode n M l)
          (by rw [read_embeddings_line_length]; exact hM) e' hrest
    · have hfe : (l :: rest).filter (fun x => x.1 = decode i) =
          rest.filter (fun x => x.1 = decode i) := by
        rw [List.filter_cons, if_neg (by simpa using hl)]
      rw [hfe] at he
      exact ih (read_embeddings_line decode n M l)
        (by rw [read_embeddings_line_length]; exact hM) e he

/-- C8. With decode injective on the vocabulary range, the matrix built by
read_embeddings carries, at row i, exactly the pretrained vector of the last
file line for token decode i, and stays the zero row when the file has no
line for that token. -/
theorem read_embeddings_rows (decode : Nat → String) (n esz : Nat)
    (file : List (String × List ℚ))
    (hinj : ∀ a, a < n → ∀ b, b < n → decode a = decode b → a = b)
    (i : Nat) (hi : i < n) :
    (∀ e : String × List ℚ,
      (file.filter (fun l => l.1 = decode i)).getLast? = some e →
      (read_embeddings decode n esz file).getD i [] = e.2) ∧
    ((file.filter (fun l => l.1 = decode i)) = [] →
      (read_embeddings decode n esz file).getD i [] = List.replicate esz 0) := by
  constructor
  · intro e he
    exact read_embeddings_fold_last decode n i hi hinj file _ (by simp; omega) e he
  · intro hnil
    unfold read_embeddings
    rw [read_embeddings_fold_other decode n i file _
      (fun l' hl' => by simpa using List.filter_eq_nil_iff.mp hnil l' hl')]
    rw [List.getD_eq_getElem?_getD, List.getElem?_replicate]
    simp [Nat.lt_succ_of_lt hi]

/-- Witness for C8 with a two-token vocabulary and a one-line embedding file:
the row of the token present in the file becomes its pretrained vector, and
the absent token's row stays zero. -/
theorem read_embeddings_rows_witness :
    (∀ a, a < 2 → ∀ b, b < 2 →
      ((fun k => if k = 0 then "a" else "b") a = (fun k => if k = 0 then "a" else "b") b) →
      a = b) ∧ 0 < 2 ∧
    (read_embeddings (fun k => if k = 0 then "a" else "b") 2 1 [("a", [5])]).getD 0 [] = [5] :=
  ⟨by decide, by decide,
    (read_embeddings_rows (fun k => if k = 0 then "a" else "b") 2 1 [("a", [5])]
      (by decide) 0 (by decide)).1 ("a", [5]) (by decide)⟩

/-! Claim C3: the copy-mixture invariant of the bspan head. -/

/-- The sigmoid output is nonnegative whenever the exponential is positive. -/
theorem sigmoid_nonneg (expF : ℚ → ℚ) (hexp : ∀ x, 0 < expF x) (x : ℚ) :
    0 ≤ sigmoid expF x := by
  unfold sigmoid
  exact le_of_lt (div_pos one_pos (by linarith [hexp (-x)]))

/-- The sigmoid output is at most one whenever the exponential is positive. -/
theorem sigmoid_le_one (expF : ℚ → ℚ) (hexp : ∀ x, 0 < expF x) (x : ℚ) :
    sigmoid expF x ≤ 1 := by
  unfold sigmoid
  rw [div_le_one (by linarith [hexp (-x)])]
  linarith [hexp (-x)]

/-- Entrywise reading of a zipWith at an in-bounds index. -/
theorem getD_zipWith {α β γ : Type} (f : α → β → γ) :
    ∀ (a : List α) (b : List β) (t : Nat) (da : α) (db : β) (dc : γ),
      t < a.length → t < b.length →
      (List.zipWith f a b).getD t dc = f (a.getD t da) (b.getD t db) := by
  intro a
  induction a with
  | nil => intro b t da db dc ha _; simp at ha
  | cons x a ih =>
    intro b t da db dc ha hb
    cases b with
    | nil => simp at hb
    | cons y b =>
      cases t with
      | zero => simp
      | succ s =>
        simp only [List.zipWith_cons_cons, List.getD_cons_succ]
        exact ih b s da db dc (by simpa using ha) (by simpa using hb)

/-- Entrywise reading of a map at an in-bounds index. -/
theorem getD_map_of_lt {α β : Type} (f : α → β) (l : List α) (t : Nat) (da : α)
    (db : β) (h : t < l.length) : (l.map f).getD t db = f (l.getD t da) := by
  rw [List.getD_eq_getElem?_getD, List.getElem?_map, List.getD_eq_getElem?_getD]
  cases hx : l[t]? with
  | none => rw [List.getElem?_eq_none_iff] at hx; omega
  | some x => simp

/-- Entrywise reading of a replicate at an in-bounds index. -/
theorem getD_replicate_of_lt {α : Type} (a d : α) (n t : Nat) (h : t < n) :
    (List.replicate n a).getD t d = a := by
  rw [List.getD_eq_getElem?_getD, List.getElem?_replicate]
  simp [h]

/-- C3. With the copy mechanism enabled, every time step of the bspan output
equals p_gen * generated_logits + (1 - p_gen) * copy_logits elementwise,
where p_gen is the sigmoid-activated generation probability of that step and
hence lies in [0, 1]; with the copy mechanism disabled the decoder returns
p_gen = 0 at every step and an all-zero copy distribution, and the bspan
output is exactly the generated logits. -/
theorem bspan_copy_mixture (expF : ℚ → ℚ) (hexp : ∀ x, 0 < expF x)
    (T : TransformerM) (inp tar : List Nat) :
    (T.copynet = true → T.bspan_decoder.copynet = true →
      ∀ t, t < (T.bspanPGen expF inp tar).length →
        (T.bspan expF inp tar).getD t [] =
          List.zipWith
            (fun g c => (T.bspanPGen expF inp tar).getD t 0 * g +
              (1 - (T.bspanPGen expF inp tar).getD t 0) * c)
            ((T.bspanGen expF inp tar).getD t [])
            ((T.bspanCopy expF inp tar).getD t []) ∧
        (T.bspanPGen expF inp tar).getD t 0 =
          sigmoid expF (dotProd T.bspan_decoder.genW
            ((T.bspanHidden expF inp tar).getD t []) + T.bspan_decoder.genB) ∧
        0 ≤ (T.bspanPGen expF inp tar).getD t 0 ∧
        (T.bspanPGen expF inp tar).getD t 0 ≤ 1) ∧
    (T.copynet = false → T.bspan_decoder.copynet = false →
      T.bspanPGen expF inp tar =
        List.replicate (T.bspanHidden expF inp tar).length 0 ∧
      T.bspanCopy expF inp tar =
        List.replicate (T.bspanHidden expF inp tar).length
          (List.replicate T.bspan_decoder.target_vocab_size 0) ∧
      T.bspan expF inp tar = T.bspanGen expF inp tar) := by
  constructor
  · intro hT hD t ht
    have hpgen : T.bspanPGen expF inp tar =
        (T.bspan_decoder.stack tar (T.encoder.callF inp)).1.map
          (fun v => sigmoid expF (dotProd T.bspan_decoder.genW v + T.bspan_decoder.genB)) := by
      simp [TransformerM.bspanPGen, TransformerM.bspanParts, DecoderM.call, hD]
    have hhid : T.bspanHidden expF inp tar =
        (T.bspan_decoder.stack tar (T.encoder.callF inp)).1 := by
      simp [TransformerM.bspanHidden, TransformerM.bspanParts, DecoderM.call, hD]
    have hgen : T.bspanGen expF inp tar =
        (T.bspan_decoder.stack tar (T.encoder.callF inp)).1.map
          (denseApply T.response_finalW T.response_finalB) := by
      simp [TransformerM.bspanGen, TransformerM.bspanParts, DecoderM.call, hD]
    have hcopy : T.bspanCopy expF inp tar =
        List.replicate (T.bspan_decoder.stack tar (T.encoder.callF inp)).1.length
          (copyLogits tar
            (softmaxL expF
              ((T.bspan_decoder.stack tar (T.encoder.callF inp)).2.map
                T.bspan_decoder.copyScore))
            T.bspan_decoder.target_vocab_size) := by
      simp [TransformerM.bspanCopy, TransformerM.bspanParts, DecoderM.call, hD]
    have hlh : t < (T.bspan_decoder.stack tar (T.encoder.callF inp)).1.length := by
      rw [hpgen, List.length_map] at ht
      exact ht
    have hlgen : t < (T.bspanGen expF inp tar).length := by
      rw [hgen, List.length_map]
      exact hlh
    have hlcopy : t < (T.bspanCopy expF inp tar).length := by
      rw [hcopy, List.length_replicate]
      exact hlh
    have hbsp : T.bspan expF inp tar =
        List.zipWith (fun p gc => List.zipWith (fun g c => p * g + (1 - p) * c) gc.1 gc.2)
          (T.bspanPGen expF inp tar)
          ((T.bspanGen expF inp tar).zip (T.bspanCopy expF inp tar)) := by
      simp [TransformerM.bspan, hT]
    refine ⟨?_, ?_, ?_, ?_⟩
    · rw [hbsp,
        getD_zipWith _ (T.bspanPGen expF inp tar)
          ((T.bspanGen expF inp tar).zip (T.bspanCopy expF inp tar)) t 0 ([], []) [] ht
          (by rw [List.length_zip]; exact lt_min hlgen hlcopy)]
      rw [List.zip_eq_zipWith,
        getD_zipWith Prod.mk (T.bspanGen expF inp tar) (T.bspanCopy expF inp tar) t
          [] [] ([], []) hlgen hlcopy]
    · rw [hpgen, hhid, getD_map_of_lt _ _ t [] 0 hlh]
    · rw [hpgen, getD_map_of_lt _ _ t [] 0 hlh]
      exact sigmoid_nonneg expF hexp _
    · rw [hpgen, getD_map_of_lt _ _ t [] 0 hlh]
      exact sigmoid_le_one expF hexp _
  · intro hT hD
    refine ⟨?_, ?_, ?_⟩
    · simp [TransformerM.bspanPGen, TransformerM.bspanHidden, TransformerM.bspanParts,
        DecoderM.call, hD]
    · simp [TransformerM.bspanCopy, TransformerM.bspanHidden, TransformerM.bspanParts,
        DecoderM.call, hD]
    · simp [TransformerM.bspan, hT]

/-- Witness for C3 on a concrete copynet-enabled transformer: the first time
step exists and its generation probability lies in [0, 1]. -/
theorem bspan_copy_mixture_witness :
    0 < (TransformerM.bspanPGen (fun _ => 1)
      (TransformerM.init (fun _ => [])
        (fun x _ => (x.map (fun _ => [1]), x.map (fun _ => [1])))
        (fun x _ => (x.map (fun _ => [1]), x.map (fun _ => [1])))
        [] 0 [] [] [] 0 [] 0 [] [] [] 0 4 [[1]] [0] [[1]] [0] true none)
      [3] [2]).length ∧
    0 ≤ (TransformerM.bspanPGen (fun _ => 1)
      (TransformerM.init (fun _ => [])
        (fun x _ => (x.map (fun _ => [1]), x.map (fun _ => [1])))
        (fun x _ => (x.map (fun _ => [1]), x.map (fun _ => [1])))
        [] 0 [] [] [] 0 [] 0 [] [] [] 0 4 [[1]] [0] [[1]] [0] true none)
      [3] [2]).getD 0 0 ∧
    (TransformerM.bspanPGen (fun _ => 1)
      (TransformerM.init (fun _ => [])
        (fun x _ => (x.map (fun _ => [1]), x.map (fun _ => [1])))
        (fun x _ => (x.map (fun _ => [1]), x.map (fun _ => [1])))
        [] 0 [] [] [] 0 [] 0 [] [] [] 0 4 [[1]] [0] [[1]] [0] true none)
      [3] [2]).getD 0 0 ≤ 1 :=
  ⟨by norm_num [TransformerM.bspanPGen, TransformerM.bspanParts, TransformerM.init,
      DecoderM.init, DecoderM.call, EncoderM.init],
    ((bspan_copy_mixture (fun _ => 1) (fun _ => one_pos)
      (TransformerM.init (fun _ => [])
        (fun x _ => (x.map (fun _ => [1]), x.map (fun _ => [1])))
        (fun x _ => (x.map (fun _ => [1]), x.map (fun _ => [1])))
        [] 0 [] [] [] 0 [] 0 [] [] [] 0 4 [[1]] [0] [[1]] [0] true none)
      [3] [2]).1 rfl rfl 0
      (by norm_num [TransformerM.bspanPGen, TransformerM.bspanParts, TransformerM.init,
        DecoderM.init, DecoderM.call, EncoderM.init])).2.2.1,
    ((bspan_copy_mixture (fun _ => 1) (fun _ => one_pos)
      (TransformerM.init (fun _ => [])
        (fun x _ => (x.map (fun _ => [1]), x.map (fun _ => [1])))
        (fun x _ => (x.map (fun _ => [1]), x.map (fun _ => [1])))
        [] 0 [] [] [] 0 [] 0 [] [] [] 0 4 [[1]] [0] [[1]] [0] true none)
      [3] [2]).1 rfl rfl 0
      (by norm_num [TransformerM.bspanPGen, TransformerM.bspanParts, TransformerM.init,
        DecoderM.init, DecoderM.call, EncoderM.init])).2.2.2⟩

/-! Claim C5: the learning-rate schedule. -/

/-- C5 divergence. Evaluating the schedule at step 0 feeds 0 to
tf.math.rsqrt, whose result is not a finite real number: the code contains no
guard that starts counting at step 1. -/
theorem customSchedule_call_zero : CustomSchedule.call 128 4000 0 = none := by
  simp [CustomSchedule.call, tfRsqrt]

/-- C5 (amended). For every step at least 1 and positive d_model, the
schedule returns d_model ^ -0.5 * min (step ^ -0.5) (step * warmup ^ -1.5). -/
theorem customSchedule_formula (d w step : ℝ) (hd : 0 < d) (hs : 1 ≤ step) :
    CustomSchedule.call d w step =
      some (d ^ (-(1/2) : ℝ) * min (step ^ (-(1/2) : ℝ)) (step * w ^ (-1.5 : ℝ))) := by
  have hs0 : (0:ℝ) < step := lt_of_lt_of_le one_pos hs
  have h1 : (Real.sqrt step)⁻¹ = step ^ (-(1/2) : ℝ) := by
    rw [Real.sqrt_eq_rpow, ← Real.rpow_neg hs0.le]
  have h2 : (Real.sqrt d)⁻¹ = d ^ (-(1/2) : ℝ) := by
    rw [Real.sqrt_eq_rpow, ← Real.rpow_neg hd.le]
  unfold CustomSchedule.call tfRsqrt
  rw [if_pos hs0, if_pos hd]
  simp [h1, h2]

/-- Witness for C5 at d_model = 1, warmup_steps = 1, step = 1. -/
theorem customSchedule_formula_witness :
    (0:ℝ) < 1 ∧ (1:ℝ) ≤ 1 ∧
    CustomSchedule.call 1 1 1 =
      some ((1:ℝ) ^ (-(1/2) : ℝ) *
        min ((1:ℝ) ^ (-(1/2) : ℝ)) (1 * (1:ℝ) ^ (-1.5 : ℝ))) :=
  ⟨one_pos, le_refl 1, customSchedule_formula 1 1 1 one_pos (le_refl 1)⟩
